import Mathlib

/-!
Shallow embedding of the in-process document store of
`books-scraper-crud-api` (file `src/database.py`) and proofs about the
behaviour its specification describes.

Modelling conventions:
* Python dictionaries holding documents become association lists
  (`Doc := List (String × Value)`); lookups use the first occurrence of a
  key, assignment replaces in place keeping the position (as Python dict
  assignment does) or appends at the end for a fresh key.
* Python numbers (ints and floats) are modelled exactly as rationals
  (`Rat`); strings stay `String`.
* Operations that can raise a Python exception (a `TypeError` from a
  cross-type `<` comparison, a `json.JSONDecodeError`) return
  `Except Unit _`, where `.error ()` stands for a propagated exception.
* Regular-expression search (`re.search`) is kept abstract: the matcher
  takes a `reSearch : String → String → Bool → Bool` oracle
  (pattern, text, case-insensitive flag).  No theorem below depends on
  the oracle's behaviour.
-/

namespace BooksStore

/-- Scalar value stored in a document field: a string or a number
(Python ints and floats modelled exactly as rationals). -/
inductive Value where
  | str (s : String)
  | num (q : Rat)
  deriving DecidableEq, Repr

/-- Document: a Python dict, modelled as an association list from field
names to values, first occurrence of a key authoritative. -/
abbrev Doc : Type := List (String × Value)

/-- Lookup a field (`item[key]` / `item.get(key)`): value at the first
occurrence of the key, if any. -/
def Doc.get (d : Doc) (k : String) : Option Value :=
  (List.find? (fun p => p.1 = k) d).map (fun p => p.2)

/-- Dict assignment `d[k] = v`: replace the value at the first occurrence
of `k` keeping its position, or append the pair when `k` is absent. -/
def Doc.set (d : Doc) (k : String) (v : Value) : Doc :=
  match d with
  | [] => [(k, v)]
  | (k1, v1) :: rest =>
      if k1 = k then (k, v) :: rest else (k1, v1) :: Doc.set rest k v

/-- Dict merge `d.update(fields)`: assign each pair of `fields` in order. -/
def Doc.updateWith (d : Doc) (fields : List (String × Value)) : Doc :=
  fields.foldl (fun acc p => acc.set p.1 p.2) d

/-- Python `str()` of a stored value (used by the `$regex` branch, which
searches over `str(item[key])`). -/
def Value.pyStr : Value → String
  | .str s => s
  | .num q => toString q

/-- Python `a < b` on stored values: defined within one type, a
`TypeError` (modelled as `.error ()`) across types. -/
def Value.pyLt : Value → Value → Except Unit Bool
  | .str a, .str b => .ok (decide (a < b))
  | .num a, .num b => .ok (decide (a < b))
  | _, _ => .error ()

/-- Python `a > b` on stored values: defined within one type, a
`TypeError` (modelled as `.error ()`) across types. -/
def Value.pyGt : Value → Value → Except Unit Bool
  | .str a, .str b => .ok (decide (b < a))
  | .num a, .num b => .ok (decide (b < a))
  | _, _ => .error ()

/-- Operator object appearing as a filter value, e.g.
`{"$gte": a, "$lte": b}`.  The three keys the matcher inspects are
explicit optional fields; `others` records the names of any further
(unsupported) operator keys, such as `"$ne"` — the matcher never reads
them, only their presence matters for the claims.  `regex` carries the
pattern together with the case-insensitivity flag
(`value.get("$options") == "i"`). -/
structure OpObject where
  regex : Option (String × Bool) := none
  gte : Option Value := none
  lte : Option Value := none
  others : List String := []
  deriving DecidableEq, Repr

/-- Filter value for one field: a literal (equality match) or an operator
object (`isinstance(value, dict)` branch). -/
inductive QueryValue where
  | lit (v : Value)
  | op (o : OpObject)
  deriving DecidableEq, Repr

/-- Filter specification: a dict from field name to filter value. -/
abbrev Query : Type := List (String × QueryValue)

/-- Per-field predicate of `MemoryCollection._match_query`, given the
field is present with value `v`.  Mirrors the source exactly: a literal
compares with `!=` (cross-type values are simply unequal); an operator
object runs the `if/elif` chain `$regex` → `$gte` → `$lte`, where thanks
to the short-circuit `and` the `$lte` test still runs when the `$gte`
bound is present but satisfied, and an object with none of the three
supported keys falls through the chain without failing. -/
def matchField (reSearch : String → String → Bool → Bool)
    (v : Value) (qv : QueryValue) : Except Unit Bool :=
  match qv with
  | .lit w => .ok (decide (v = w))
  | .op o =>
    match o.regex with
    | some (pat, ci) => .ok (reSearch pat v.pyStr ci)
    | none => do
      let gteViolated ← match o.gte with
        | some b => Value.pyLt v b
        | none => pure false
      if gteViolated then
        return false
      let lteViolated ← match o.lte with
        | some b => Value.pyGt v b
        | none => pure false
      if lteViolated then
        return false
      return true

/-- Matcher `MemoryCollection._match_query(item, query)`: every filter
field must be present in the document and satisfy its per-field
predicate; an empty filter matches everything. -/
def matchQuery (reSearch : String → String → Bool → Bool)
    (item : Doc) (query : Query) : Except Unit Bool :=
  match query with
  | [] => .ok true
  | (k, qv) :: rest =>
    match item.get k with
    | none => .ok false
    | some v => do
      let b ← matchField reSearch v qv
      if b then matchQuery reSearch item rest else return false

/-- Trivial regex oracle used in concrete witnesses (its behaviour never
matters for the statements below). -/
def noRe : String → String → Bool → Bool := fun _ _ _ => false

/-!
Value-level model of `MemoryCollection`.  The global `_memory_storage`
list is passed explicitly as `storage : List Doc`; the wall-clock
timestamp entering generated identifiers is passed as `ts : Int`.
Aliasing between stored dicts and dicts handed to or returned from the
API is invisible at this level; it is treated separately by the
reference-level model further down.
-/

/-- Identifier assigned by `insert_one`:
`f"mem_{len(_memory_storage)}_{int(datetime.now().timestamp())}"`. -/
def mkId (storageLen : Nat) (ts : Int) : String :=
  "mem_" ++ toString storageLen ++ "_" ++ toString ts

/-- The `MemoryCollection.insert_one(document)` operation.  It always
assigns `document["_id"]` (overwriting any identifier already present),
appends a copy of the mutated document, and returns the new storage
together with the mutated caller document and the inserted identifier. -/
def insert_one (storage : List Doc) (document : Doc) (ts : Int) :
    List Doc × Doc × String :=
  let newId := mkId storage.length ts
  let doc1 := document.set "_id" (.str newId)
  (storage ++ [doc1], doc1, newId)

/-- The `MemoryCollection.find_one(query)` operation, value level:
first stored document matching the query, scanning in storage order. -/
def find_one (reSearch : String → String → Bool → Bool)
    (storage : List Doc) (query : Query) : Except Unit (Option Doc) :=
  match storage with
  | [] => .ok none
  | d :: rest => do
    let m ← matchQuery reSearch d query
    if m then return some d else find_one reSearch rest query

/-- Update document passed to `update_one`: `some fields` models
`{"$set": fields}`, `none` an update dict without a `$set` key (which the
source leaves the document unchanged by, while still reporting a
modification). -/
def applySet (d : Doc) (setFields : Option (List (String × Value))) : Doc :=
  match setFields with
  | some fields => d.updateWith fields
  | none => d

/-- The `MemoryCollection.update_one(query, update)` operation: find the
first match in storage order, merge the `$set` fields into it in place,
and report `(matched_count, modified_count) = (1, 1)`; report `(0, 0)`
with the storage untouched when nothing matches. -/
def update_one (reSearch : String → String → Bool → Bool)
    (storage : List Doc) (query : Query)
    (setFields : Option (List (String × Value))) :
    Except Unit (List Doc × Nat × Nat) :=
  match storage with
  | [] => .ok ([], 0, 0)
  | d :: rest => do
    let m ← matchQuery reSearch d query
    if m then
      return (applySet d setFields :: rest, 1, 1)
    else
      let (rest1, a, b) ← update_one reSearch rest query setFields
      return (d :: rest1, a, b)

/-- The `MemoryCollection.delete_one(query)` operation: remove the first
match in storage order, reporting the number removed. -/
def delete_one (reSearch : String → String → Bool → Bool)
    (storage : List Doc) (query : Query) : Except Unit (List Doc × Nat) :=
  match storage with
  | [] => .ok ([], 0)
  | d :: rest => do
    let m ← matchQuery reSearch d query
    if m then
      return (rest, 1)
    else
      let (rest1, c) ← delete_one reSearch rest query
      return (d :: rest1, c)

/-- Backward loop of `delete_many` for a non-empty query: the source
iterates indices from high to low and deletes matches, which this
right-to-left recursion reproduces (the tail — the higher indices — is
processed before the head). -/
def delete_many_loop (reSearch : String → String → Bool → Bool)
    (storage : List Doc) (query : Query) : Except Unit (List Doc × Nat) :=
  match storage with
  | [] => .ok ([], 0)
  | d :: rest => do
    let (rest1, c) ← delete_many_loop reSearch rest query
    let m ← matchQuery reSearch d query
    if m then
      return (rest1, c + 1)
    else
      return (d :: rest1, c)

/-- The `MemoryCollection.delete_many(query)` operation: an empty (falsy)
query is a fast path clearing the whole storage and reporting its prior
length; otherwise delete every match. -/
def delete_many (reSearch : String → String → Bool → Bool)
    (storage : List Doc) (query : Query) : Except Unit (List Doc × Nat) :=
  if query.isEmpty then
    .ok ([], storage.length)
  else
    delete_many_loop reSearch storage query

/-- Matching sub-list of the storage, in storage order (the list
comprehension used by `find` and `count_documents`). -/
def filterMatches (reSearch : String → String → Bool → Bool)
    (storage : List Doc) (query : Query) : Except Unit (List Doc) :=
  match storage with
  | [] => .ok []
  | d :: rest => do
    let m ← matchQuery reSearch d query
    let rest1 ← filterMatches reSearch rest query
    if m then
      return d :: rest1
    else
      return rest1

/-- The `MemoryCollection.count_documents(query)` operation: `none`
models the absent (`query=None`) argument returning the total size,
`some q` counts the matches of `q` (an empty dict `q = []` matches
everything). -/
def count_documents (reSearch : String → String → Bool → Bool)
    (storage : List Doc) (query : Option Query) : Except Unit Nat :=
  match query with
  | none => .ok storage.length
  | some q => do
    let l ← filterMatches reSearch storage q
    return l.length

/-!
Stable sorting.  Python's `list.sort` is a stable comparison sort; with
`reverse=True` it is a stable sort by decreasing key.  Both are modelled
by a stable insertion sort parameterised by a boolean comparator,
together with the totality/transitivity facts the cursor comparators
enjoy.
-/

/-- Insert `d` into the already sorted `acc`, after every element `e`
with `le e d` (so a later-arriving tie lands after earlier ones: the
insertion is stable). -/
def insertSorted {α : Type} (le : α → α → Bool) (d : α) : List α → List α
  | [] => [d]
  | e :: rest => if le e d then e :: insertSorted le d rest else d :: e :: rest

/-- Stable insertion sort: fold the input left to right into a sorted
accumulator. -/
def stableSortBy {α : Type} (le : α → α → Bool) (l : List α) : List α :=
  l.foldl (fun acc d => insertSorted le d acc) []

/-- Sort key used by `MemoryCursor.to_list`:
`lambda x: x.get(self._sort_field, 0)` — the field value, or the integer
`0` when the field is missing. -/
def sortKey (f : String) (d : Doc) : Value :=
  (d.get f).getD (.num 0)

/-- Whether a value is a number. -/
def Value.isNum : Value → Bool
  | .num _ => true
  | .str _ => false

/-- Whether a value is a string. -/
def Value.isStr : Value → Bool
  | .num _ => false
  | .str _ => true

/-- Numeric sort key of a document (meaningful when the key is known to
be numeric; `0` otherwise). -/
def ratKey (f : String) (d : Doc) : Rat :=
  match sortKey f d with
  | .num q => q
  | .str _ => 0

/-- String sort key of a document (meaningful when the key is known to
be a string; `""` otherwise). -/
def strKey (f : String) (d : Doc) : String :=
  match sortKey f d with
  | .num _ => ""
  | .str s => s

/-- Comparator realising Python's stable key sort over numeric keys:
ascending for `direction ≠ -1`, descending for `direction = -1`
(`reverse = self._sort_direction == -1`). -/
def numLe (f : String) (dir : Int) (a b : Doc) : Bool :=
  if dir = -1 then decide (ratKey f b ≤ ratKey f a)
  else decide (ratKey f a ≤ ratKey f b)

/-- Comparator realising Python's stable key sort over string keys. -/
def strOrdLe (f : String) (dir : Int) (a b : Doc) : Bool :=
  if dir = -1 then decide (strKey f b ≤ strKey f a)
  else decide (strKey f a ≤ strKey f b)

/-- The `result.sort(key=lambda x: x.get(field, 0), reverse=...)` step.
When all keys are numbers (including the integer default `0`) or all are
strings, CPython completes the stable key sort; when both a number and a
string occur among the keys the interpreter is guaranteed to hit a
cross-type `<` comparison before completing (a comparison sort cannot
order two nonempty groups without comparing across them), raising
`TypeError`, modelled as `.error ()`. -/
def pySort (f : String) (dir : Int) (data : List Doc) :
    Except Unit (List Doc) :=
  if (data.map (sortKey f)).all Value.isNum then
    .ok (stableSortBy (numLe f dir) data)
  else if (data.map (sortKey f)).all Value.isStr then
    .ok (stableSortBy (strOrdLe f dir) data)
  else
    .error ()

/-- The `MemoryCursor` object: candidate documents plus the deferred
skip/limit/sort configuration, with the source's defaults. -/
structure MemoryCursor where
  data : List Doc
  _skip : Nat := 0
  _limit : Option Nat := none
  _sort_field : Option String := none
  _sort_direction : Int := 1
  deriving DecidableEq

/-- Chainable `cursor.skip(count)` configuration call. -/
def MemoryCursor.skip (c : MemoryCursor) (count : Nat) : MemoryCursor :=
  { c with _skip := count }

/-- Chainable `cursor.limit(count)` configuration call. -/
def MemoryCursor.limit (c : MemoryCursor) (count : Nat) : MemoryCursor :=
  { c with _limit := some count }

/-- Chainable `cursor.sort(field, direction)` configuration call. -/
def MemoryCursor.sort (c : MemoryCursor) (field : String) (direction : Int) :
    MemoryCursor :=
  { c with _sort_field := some field, _sort_direction := direction }

/-- The slice `result[start:end]` with `start = skip` and
`end = start + limit if limit else None`: a limit of `None` or `0` is
falsy, leaving the tail unbounded. -/
def pyLimit (lim : Option Nat) (l : List Doc) : List Doc :=
  match lim with
  | none => l
  | some n => if n = 0 then l else l.take n

/-- The `MemoryCursor.to_list(length)` materialisation: copy the data,
sort it when a truthy (non-`None`, non-empty) sort field is configured,
then slice by skip and limit.  The `length` argument is accepted and
never read. -/
def MemoryCursor.to_list (c : MemoryCursor) (length : Option Nat) :
    Except Unit (List Doc) := do
  let result ←
    match c._sort_field with
    | none => pure c.data
    | some f => if f = "" then pure c.data else pySort f c._sort_direction c.data
  return pyLimit c._limit (result.drop c._skip)

/-- The `MemoryCollection.find(query)` operation: a fresh cursor over the
matching documents in storage order. -/
def find (reSearch : String → String → Bool → Bool)
    (storage : List Doc) (query : Query) : Except Unit MemoryCursor := do
  let results ← filterMatches reSearch storage query
  return { data := results }

/-!
Aggregation (`MemoryAggregationCursor`).
-/

/-- Group-stage specification `stage["$group"]`.  `_id` is `none` for a
null group key and `some f` for a field-name key; the four boolean flags
record whether the literally named accumulator keys (the only ones the
source tests for membership) are present; `others` lists any further
keys, such as `"total_books"`, which the source never reads. -/
structure GroupSpec where
  _id : Option String
  avg_price : Bool := false
  min_price : Bool := false
  max_price : Bool := false
  avg_rating : Bool := false
  others : List String := []
  deriving DecidableEq, Repr

/-- Pipeline stage: the source only tests whether the stage dict has a
`"$group"` key, so every other stage shape (a `"$sort"` stage with its
field and direction, or anything else) is distinguished only for
bookkeeping. -/
inductive Stage where
  | group (g : GroupSpec)
  | sort (field : String) (direction : Int)
  | other
  deriving DecidableEq, Repr

/-- Whether a stage carries a `"$group"` key. -/
def Stage.isGroup : Stage → Bool
  | .group _ => true
  | _ => false

/-- Python `sum(vals)` over stored values: `0` for the empty list,
numeric addition when all entries are numbers, and a `TypeError`
otherwise (the accumulator starts at the integer `0`). -/
def sumVals (vals : List Value) : Except Unit Rat :=
  if vals.all Value.isNum then
    .ok ((vals.map (fun v => match v with | .num q => q | .str _ => 0)).sum)
  else
    .error ()

/-- Python `min(vals)` on a nonempty list of stored values: defined when
all entries are numbers or all are strings, a `TypeError` on a mix (and
never consulted on the empty list, which the source guards). -/
def minVals (vals : List Value) : Except Unit Value :=
  if vals.all Value.isNum then
    match vals.map (fun v => match v with | .num q => q | .str _ => 0) with
    | [] => .ok (.num 0)
    | q :: qs => .ok (.num (qs.foldl min q))
  else if vals.all Value.isStr then
    match vals.map (fun v => match v with | .num _ => "" | .str s => s) with
    | [] => .ok (.str "")
    | s :: ss => .ok (.str (ss.foldl min s))
  else
    .error ()

/-- Python `max(vals)`, mirror of `minVals`. -/
def maxVals (vals : List Value) : Except Unit Value :=
  if vals.all Value.isNum then
    match vals.map (fun v => match v with | .num q => q | .str _ => 0) with
    | [] => .ok (.num 0)
    | q :: qs => .ok (.num (qs.foldl max q))
  else if vals.all Value.isStr then
    match vals.map (fun v => match v with | .num _ => "" | .str s => s) with
    | [] => .ok (.str "")
    | s :: ss => .ok (.str (ss.foldl max s))
  else
    .error ()

/-- Null-key group stage: compute each requested accumulator over the
whole input, guarding the empty input with a literal `0`, and build the
result dict in the source's key order (`avg_price`, `min_price`,
`max_price`, `avg_rating`). -/
def runNullGroup (data : List Doc) (g : GroupSpec) : Except Unit Doc := do
  let prices : List Value := data.map (fun d => (d.get "price").getD (.num 0))
  let ratings : List Value := data.map (fun d => (d.get "star_rating").getD (.num 0))
  let r0 : Doc := []
  let r1 ←
    if g.avg_price then
      if prices.isEmpty then pure (r0.set "avg_price" (.num 0))
      else do
        let s ← sumVals prices
        pure (r0.set "avg_price" (.num (s / (prices.length : Rat))))
    else pure r0
  let r2 ←
    if g.min_price then
      if prices.isEmpty then pure (r1.set "min_price" (.num 0))
      else do
        let m ← minVals prices
        pure (r1.set "min_price" m)
    else pure r1
  let r3 ←
    if g.max_price then
      if prices.isEmpty then pure (r2.set "max_price" (.num 0))
      else do
        let m ← maxVals prices
        pure (r2.set "max_price" m)
    else pure r2
  let r4 ←
    if g.avg_rating then
      if ratings.isEmpty then pure (r3.set "avg_rating" (.num 0))
      else do
        let s ← sumVals ratings
        pure (r3.set "avg_rating" (.num (s / (ratings.length : Rat))))
    else pure r3
  return r4

/-- Bump the count of `k` in an association list of counts, keeping
first-seen insertion order (Python dict + `setdefault`). -/
def bumpKey (acc : List (Value × Nat)) (k : Value) : List (Value × Nat) :=
  match acc with
  | [] => [(k, 1)]
  | (k1, c) :: rest =>
      if k1 = k then (k1, c + 1) :: rest else (k1, c) :: bumpKey rest k

/-- Field-key group stage: partition the input by
`item.get(group_field, "Unknown")` and emit one `{_id, count}` document
per distinct key, in first-seen order. -/
def runKeyedGroup (data : List Doc) (group_field : String) : List Doc :=
  let keys := data.map (fun d => (d.get group_field).getD (.str "Unknown"))
  (keys.foldl bumpKey []).map
    (fun p => ([("_id", p.1), ("count", Value.num (p.2 : Rat))] : Doc))

/-- The `MemoryAggregationCursor.to_list` evaluation: scan the pipeline
left to right for the first stage holding a `"$group"` key, evaluate
that group stage over the original input data, and return its output
immediately; all other stages are skipped, and a pipeline with no group
stage yields the empty list.  (The `length` argument of the source is
ignored there as well and omitted here.) -/
def aggregate_to_list (data : List Doc) : List Stage → Except Unit (List Doc)
  | [] => .ok []
  | .group g :: _ =>
    match g._id with
    | none => do
      let r ← runNullGroup data g
      return [r]
    | some f => .ok (runKeyedGroup data f)
  | .sort _ _ :: rest => aggregate_to_list data rest
  | .other :: rest => aggregate_to_list data rest

/-!
Snapshot loading and the fallback path of the connection manager.
-/

/-- Outcome of opening and JSON-parsing `books_data.json`, the only
aspects of the file `_load_memory_data` distinguishes. -/
inductive SnapshotFile where
  | missing
  | unparseable
  | parsedDictWithBooks (books : List Doc)
  | parsedDictNoBooks
  | parsedList (docs : List Doc)
  | parsedOther
  deriving DecidableEq

/-- The `_load_memory_data()` coroutine over memory contents `prior`
(the module-level `_memory_storage`, empty at startup): a missing file
is caught (`except FileNotFoundError`) and resets the storage to empty;
a file that opens but fails JSON parsing raises `json.JSONDecodeError`,
which no handler catches, so the exception propagates (`.error ()`); a
parsed payload extends the storage with its `books` member (dict shape)
or with itself (list shape), and any other payload shape leaves the
storage unchanged. -/
def load_memory_data (prior : List Doc) (f : SnapshotFile) :
    Except Unit (List Doc) :=
  match f with
  | .missing => .ok []
  | .unparseable => .error ()
  | .parsedDictWithBooks books => .ok (prior ++ books)
  | .parsedDictNoBooks => .ok prior
  | .parsedList docs => .ok (prior ++ docs)
  | .parsedOther => .ok prior

/-- Fallback branch of `connect_to_mongo()` once the handshake has
failed: set `_use_memory_storage = True`, then await
`_load_memory_data()` with the startup-empty storage.  An exception
raised by the load is not caught anywhere in `connect_to_mongo` (the
call sits inside the `except` handler), so it propagates out of the
connect operation. -/
def connect_fallback (f : SnapshotFile) : Except Unit (Bool × List Doc) := do
  let storage ← load_memory_data [] f
  return (true, storage)

/-!
Reference-level model of the store, used for aliasing facts.  Python
dicts are heap objects; `Store.heap` holds every live dict, `Ref` is an
index into it, and `_memory_storage` is a list of references.  Reads and
writes through any reference touch the shared cell.
-/

namespace RefModel

/-- Reference to a dict object on the heap. -/
abbrev Ref := Nat

/-- Heap of dict objects plus the `_memory_storage` reference list. -/
structure Store where
  heap : List Doc
  storage : List Ref
  deriving DecidableEq

/-- Contents of the dict a reference points to. -/
def Store.cell (s : Store) (r : Ref) : Doc :=
  s.heap.getD r []

/-- Stored content of the collection: the documents its references hold,
in storage order. -/
def Store.docs (s : Store) : List Doc :=
  s.storage.map s.cell

/-- Field assignment `obj[k] = v` through a reference: mutates the
shared cell, in place. -/
def writeField (s : Store) (r : Ref) (k : String) (v : Value) : Store :=
  { s with heap := s.heap.set r ((s.heap.getD r []).set k v) }

/-- Reference-level `insert_one(document)`: assign `document["_id"]`
through the caller's reference, then append a fresh copy
(`document.copy()`) of the mutated dict — insertion is the one place the
source copies. -/
def insert_one (s : Store) (r : Ref) (ts : Int) : Store × String :=
  let newId := mkId s.storage.length ts
  let heap1 := s.heap.set r ((s.heap.getD r []).set "_id" (.str newId))
  ({ heap := heap1 ++ [heap1.getD r []], storage := s.storage ++ [heap1.length] },
   newId)

/-- Scan a reference list for the first match of a query. -/
def find_first (reSearch : String → String → Bool → Bool) (s : Store) :
    List Ref → Query → Except Unit (Option Ref)
  | [], _ => .ok none
  | r :: rest, q => do
    let m ← matchQuery reSearch (s.cell r) q
    if m then return some r else find_first reSearch s rest q

/-- Reference-level `find_one(query)`: the source returns `item` — the
stored dict object itself, not a copy — so the result is a reference
drawn directly from `_memory_storage`. -/
def find_one (reSearch : String → String → Bool → Bool)
    (s : Store) (q : Query) : Except Unit (Option Ref) :=
  find_first reSearch s s.storage q

end RefModel

/-!
Helper lemmas about dictionaries.
-/

theorem Doc.get_set_self (d : Doc) (k : String) (v : Value) :
    (d.set k v).get k = some v := by
  induction d with
  | nil => simp [Doc.set, Doc.get, List.find?]
  | cons p rest ih =>
      by_cases h : p.1 = k
      · simp [Doc.set, Doc.get, List.find?, h]
      · simpa [Doc.set, Doc.get, List.find?, h] using ih

theorem Doc.get_set_ne (d : Doc) (k1 k : String) (v : Value) (h : k1 ≠ k) :
    (d.set k1 v).get k = d.get k := by
  induction d with
  | nil => simp [Doc.set, Doc.get, List.find?, h]
  | cons p rest ih =>
      by_cases h1 : p.1 = k1
      · have h2 : p.1 ≠ k := h1 ▸ h
        simp [Doc.set, Doc.get, List.find?, h1, h, h2]
      · by_cases h2 : p.1 = k
        · simp [Doc.set, Doc.get, List.find?, h1, h2, Ne.symm h]
        · simpa [Doc.set, Doc.get, List.find?, h1, h2] using ih

theorem Doc.get_updateWith_not_mem (d : Doc) (fields : List (String × Value))
    (k : String) (h : k ∉ fields.map Prod.fst) :
    (d.updateWith fields).get k = d.get k := by
  induction fields generalizing d with
  | nil => rfl
  | cons p rest ih =>
      have hk : p.1 ≠ k := by
        intro he
        exact h (by simp [he])
      have hrest : k ∉ rest.map Prod.fst := by
        intro hm
        exact h (by simp [hm])
      calc (d.updateWith (p :: rest)).get k
          = ((d.set p.1 p.2).updateWith rest).get k := rfl
        _ = (d.set p.1 p.2).get k := ih _ hrest
        _ = d.get k := Doc.get_set_ne _ _ _ _ hk

theorem Doc.get_updateWith_mem (d : Doc) (fields : List (String × Value))
    (k : String) (w : Value) (hmem : (k, w) ∈ fields)
    (hnd : (fields.map Prod.fst).Nodup) :
    (d.updateWith fields).get k = some w := by
  induction fields generalizing d with
  | nil => cases hmem
  | cons p rest ih =>
      have hnd1 : p.1 ∉ rest.map Prod.fst := by
        simpa using (List.nodup_cons.mp hnd).1
      have hnd2 : (rest.map Prod.fst).Nodup := (List.nodup_cons.mp hnd).2
      rcases List.mem_cons.mp hmem with he | hm
      · subst he
        have : ((d.set k w).updateWith rest).get k = (d.set k w).get k :=
          Doc.get_updateWith_not_mem _ _ _ hnd1
        calc (d.updateWith ((k, w) :: rest)).get k
            = ((d.set k w).updateWith rest).get k := rfl
          _ = (d.set k w).get k := this
          _ = some w := Doc.get_set_self _ _ _
      · exact ih (d.set p.1 p.2) hm hnd2

theorem mkId_ne_empty (n : Nat) (ts : Int) : mkId n ts ≠ "" := by
  intro h
  have hlen := congrArg String.length h
  simp [mkId, String.length_append] at hlen
  exact absurd hlen.1.1.1 (by decide)

/-!
Claim theorems.
-/

/-- C9: `delete_many` with an empty (falsy) filter clears the whole
storage and reports the prior total count, and `count_documents` over
the now-empty storage returns `0` both for an absent filter and for an
empty filter dict. -/
theorem delete_all_then_count_zero
    (reSearch : String → String → Bool → Bool) (storage : List Doc) :
    delete_many reSearch storage [] = .ok ([], storage.length)
    ∧ count_documents reSearch [] none = .ok 0
    ∧ count_documents reSearch [] (some []) = .ok 0 := by
  refine ⟨rfl, rfl, rfl⟩

/-- C10: configuring `limit(0)` on an in-process cursor behaves exactly
as if no limit had been configured, because materialisation applies the
limit only when it is truthy; in particular with no sort configured the
result is every document remaining after the skip. -/
theorem limit_zero_means_no_limit :
    (∀ (c : MemoryCursor) (len : Option Nat),
        (c.limit 0).to_list len = MemoryCursor.to_list { c with _limit := none } len)
    ∧ (∀ (data : List Doc) (sk : Nat) (dir : Int) (len : Option Nat),
        MemoryCursor.to_list ⟨data, sk, some 0, none, dir⟩ len
          = .ok (data.drop sk)) := by
  constructor
  · intro c len
    cases c with
    | mk data sk lim sf dir =>
        cases sf with
        | none => rfl
        | some f =>
            by_cases hf : f = ""
            · simp [MemoryCursor.limit, MemoryCursor.to_list, hf, pyLimit]
            · simp only [MemoryCursor.limit, MemoryCursor.to_list, hf, if_neg]
              cases pySort f dir data with
              | error e => rfl
              | ok l => simp [pyLimit]
  · intro data sk dir len
    rfl

/-- C3 counterexample: a snapshot file that exists but fails JSON
parsing is not treated like a missing snapshot — the missing file yields
a clean empty store while the corrupt file makes the parse exception
propagate out of the connect operation. -/
theorem corrupt_snapshot_propagates :
    connect_fallback SnapshotFile.unparseable = .error ()
    ∧ connect_fallback SnapshotFile.missing = .ok (true, [])
    ∧ connect_fallback SnapshotFile.unparseable
        ≠ connect_fallback SnapshotFile.missing := by
  refine ⟨rfl, rfl, ?_⟩
  simp [connect_fallback, load_memory_data, Except.bind]

/-- C3 amended: when the handshake fails, a missing snapshot file
degrades to an empty store with no error, and a parsed snapshot is
loaded; but an existing, unparseable snapshot raises out of the connect
operation instead of degrading to an empty store. -/
theorem fallback_snapshot_loading :
    connect_fallback SnapshotFile.missing = .ok (true, [])
    ∧ connect_fallback SnapshotFile.unparseable = .error ()
    ∧ (∀ books : List Doc,
        connect_fallback (SnapshotFile.parsedDictWithBooks books)
          = .ok (true, books))
    ∧ (∀ docs : List Doc,
        connect_fallback (SnapshotFile.parsedList docs) = .ok (true, docs)) := by
  exact ⟨rfl, rfl, fun books => by simp [connect_fallback, load_memory_data, Except.bind],
    fun docs => by simp [connect_fallback, load_memory_data, Except.bind]⟩

/-- C6 counterexample: a document arriving at `insert_one` already
carrying the identifier `"x"` does not keep it — the stored copy and the
returned identifier are the freshly generated `"mem_0_0"`. -/
theorem insert_one_overwrites_existing_id :
    insert_one [] [("_id", Value.str "x")] 0
      = ([[("_id", Value.str "mem_0_0")]], [("_id", Value.str "mem_0_0")], "mem_0_0")
    ∧ "mem_0_0" ≠ "x" := by
  exact ⟨rfl, by decide⟩

/-- C6 amended: `insert_one` always assigns a fresh identifier to the
document, overwriting any identifier already present, appends a copy of
the mutated document, and returns the identifier, which is non-empty;
the operation is total, never failing on document content. -/
theorem insert_one_spec (storage : List Doc) (document : Doc) (ts : Int) :
    insert_one storage document ts
      = (storage ++ [document.set "_id" (.str (mkId storage.length ts))],
         document.set "_id" (.str (mkId storage.length ts)),
         mkId storage.length ts)
    ∧ mkId storage.length ts ≠ ""
    ∧ (document.set "_id" (.str (mkId storage.length ts))).get "_id"
        = some (.str (mkId storage.length ts)) := by
  exact ⟨rfl, mkId_ne_empty _ _, Doc.get_set_self _ _ _⟩

/-- C7 counterexample: a filter whose field value is an operator object
holding only the unsupported operator `$ne` raises nothing, but the
field's predicate vacuously succeeds rather than fails — the document
matches the filter. -/
theorem unsupported_operator_matches :
    matchQuery noRe [("a", Value.num 1)]
        [("a", QueryValue.op ⟨none, none, none, ["$ne"]⟩)] = .ok true
    ∧ matchQuery noRe [("a", Value.num 1)]
        [("a", QueryValue.op ⟨none, none, none, ["$ne"]⟩)] ≠ .ok false := by
  refine ⟨rfl, fun hc => ?_⟩
  have h0 : (Except.ok true : Except Unit Bool) = Except.ok false :=
    Eq.trans (by rfl) hc
  injection h0 with h1
  exact Bool.noConfusion h1

/-- C7 amended: for any single-field filter whose value is an operator
object containing none of the supported operators (`$regex`, `$gte`,
`$lte`), matching degrades permissively without raising, and the field's
predicate vacuously succeeds: any document containing the field matches
the filter. -/
theorem unsupported_operator_vacuous (reSearch : String → String → Bool → Bool)
    (item : Doc) (k : String) (v : Value) (others : List String)
    (h : item.get k = some v) :
    matchQuery reSearch item [(k, QueryValue.op ⟨none, none, none, others⟩)]
      = .ok true := by
  simp [matchQuery, h, matchField, Except.bind]

/-- C7 amended, witness: the concrete document `{a: 1}` matches the
filter `{a: {$ne: 1}}`. -/
theorem unsupported_operator_vacuous_witness :
    matchQuery noRe [("a", Value.num 1)]
        [("a", QueryValue.op ⟨none, none, none, ["$ne"]⟩)] = .ok true := by
  exact unsupported_operator_vacuous noRe [("a", Value.num 1)] "a" (Value.num 1)
    ["$ne"] (by decide)

/-- C1: an operator object carrying both a `$gte` and a `$lte` bound (and
no `$regex`) combines the two numeric bounds as AND — the document
matches exactly when its field value is within the inclusive range, and
either violated bound fails the match. -/
theorem gte_lte_combine_as_and (reSearch : String → String → Bool → Bool)
    (item : Doc) (k : String) (a b x : Rat) (others : List String)
    (h : item.get k = some (.num x)) :
    matchQuery reSearch item
        [(k, QueryValue.op ⟨none, some (.num a), some (.num b), others⟩)]
      = .ok (decide (a ≤ x ∧ x ≤ b)) := by
  simp only [matchQuery, h, matchField, Value.pyLt, Value.pyGt]
  by_cases h1 : x < a
  · rw [decide_eq_true h1,
      decide_eq_false (show ¬(a ≤ x ∧ x ≤ b) from
        fun hc => absurd hc.1 (not_le.mpr h1))]
    rfl
  · by_cases h2 : b < x
    · rw [decide_eq_false h1, decide_eq_true h2,
        decide_eq_false (show ¬(a ≤ x ∧ x ≤ b) from
          fun hc => absurd hc.2 (not_le.mpr h2))]
      rfl
    · rw [decide_eq_false h1, decide_eq_false h2,
        decide_eq_true (⟨not_lt.mp h1, not_lt.mp h2⟩ : a ≤ x ∧ x ≤ b)]
      rfl

/-- C1 witness: `{price: {$gte: 5, $lte: 15}}` accepts `{price: 10}`
(both bounds hold there). -/
theorem gte_lte_combine_as_and_witness :
    matchQuery noRe [("price", Value.num 10)]
        [("price", QueryValue.op ⟨none, some (.num 5), some (.num 15), []⟩)]
      = .ok (decide ((5 : Rat) ≤ 10 ∧ (10 : Rat) ≤ 15)) := by
  exact gte_lte_combine_as_and noRe [("price", Value.num 10)] "price" 5 15 10 []
    (by decide)

@[simp] theorem ok_bind {α β : Type} (a : α) (f : α → Except Unit β) :
    (Except.ok a : Except Unit α) >>= f = f a := rfl

@[simp] theorem error_bind {α β : Type} (e : Unit) (f : α → Except Unit β) :
    (Except.error e : Except Unit α) >>= f = .error e := rfl

@[simp] theorem pure_eq_ok {α : Type} (a : α) :
    (pure a : Except Unit α) = .ok a := rfl

instance {α : Type} [DecidableEq α] : DecidableEq (Except Unit α) :=
  fun a b =>
    match a, b with
    | .ok x, .ok y =>
        if h : x = y then isTrue (by rw [h])
        else isFalse (fun hc => h (Except.ok.inj hc))
    | .error e1, .error e2 => isTrue (by cases e1; cases e2; rfl)
    | .ok _, .error _ => isFalse (fun hc => Except.noConfusion hc)
    | .error _, .ok _ => isFalse (fun hc => Except.noConfusion hc)

/-- C2 counterexample: over the documents `[{g:2}, {g:1}]`, the pipeline
`[{$group: {_id: "g"}}, {$sort: {_id: 1}}]` returns the groups in
first-seen order `2, 1` — the ascending sort stage after the group stage
is never applied. -/
theorem sort_stage_after_group_ignored :
    aggregate_to_list [[("g", Value.num 2)], [("g", Value.num 1)]]
        [Stage.group { _id := some "g" }, Stage.sort "_id" 1]
      = .ok [[("_id", Value.num 2), ("count", Value.num 1)],
             [("_id", Value.num 1), ("count", Value.num 1)]]
    ∧ aggregate_to_list [[("g", Value.num 2)], [("g", Value.num 1)]]
        [Stage.group { _id := some "g" }, Stage.sort "_id" 1]
      ≠ .ok [[("_id", Value.num 1), ("count", Value.num 1)],
             [("_id", Value.num 2), ("count", Value.num 1)]] := by
  refine ⟨rfl, fun hc => ?_⟩
  have h0 :
      (Except.ok [[("_id", Value.num 2), ("count", Value.num 1)],
        [("_id", Value.num 1), ("count", Value.num 1)]] :
          Except Unit (List Doc))
        = .ok [[("_id", Value.num 1), ("count", Value.num 1)],
            [("_id", Value.num 2), ("count", Value.num 1)]] :=
    Eq.trans (by rfl) hc
  injection h0 with h1
  exact absurd h1 (by decide)

/-- C2 amended: the aggregation cursor scans the pipeline left to right
only for the first stage holding a `$group` key and evaluates it over
the original input, returning immediately — every other stage before or
after it (sort stages included) is ignored, and a pipeline with no group
stage yields the empty result. -/
theorem first_group_stage_decides (data : List Doc) (pre post : List Stage)
    (g : GroupSpec) (hpre : ∀ s ∈ pre, s.isGroup = false) :
    aggregate_to_list data (pre ++ Stage.group g :: post)
      = aggregate_to_list data [Stage.group g]
    ∧ (∀ l : List Stage, (∀ s ∈ l, s.isGroup = false)
        → aggregate_to_list data l = .ok []) := by
  constructor
  · induction pre with
    | nil => rfl
    | cons s rest ih =>
        have hs : s.isGroup = false := hpre s (by simp)
        have hrest : ∀ t ∈ rest, t.isGroup = false :=
          fun t ht => hpre t (by simp [ht])
        cases s with
        | group g2 => simp [Stage.isGroup] at hs
        | sort f d => simpa [aggregate_to_list] using ih hrest
        | other => simpa [aggregate_to_list] using ih hrest
  · intro l hl
    induction l with
    | nil => rfl
    | cons s rest ih =>
        have hs : s.isGroup = false := hl s (by simp)
        have hrest : ∀ t ∈ rest, t.isGroup = false :=
          fun t ht => hl t (by simp [ht])
        cases s with
        | group g2 => simp [Stage.isGroup] at hs
        | sort f d => simpa [aggregate_to_list] using ih hrest
        | other => simpa [aggregate_to_list] using ih hrest

/-- C2 amended, witness: with one document, a leading (ignored)
non-group stage and a trailing sort stage around a keyed group stage
give exactly the lone group stage's output. -/
theorem first_group_stage_decides_witness :
    aggregate_to_list [[("g", Value.num 2)]]
        [Stage.other, Stage.group { _id := some "g" }, Stage.sort "_id" 1]
      = aggregate_to_list [[("g", Value.num 2)]]
          [Stage.group { _id := some "g" }]
    ∧ aggregate_to_list [[("g", Value.num 2)]] [Stage.sort "_id" 1] = .ok [] := by
  have h := first_group_stage_decides [[("g", Value.num 2)]] [Stage.other]
    [Stage.sort "_id" 1] { _id := some "g" } (by decide)
  exact ⟨h.1, h.2 [Stage.sort "_id" 1] (by decide)⟩

/-- C8: `update_one` with a `$set` update rewrites exactly the first
matching document in storage order, merging only the named fields and
keeping every other field and every other document; it reports
`matched=1, modified=1`, and when nothing matches it reports `(0, 0)`
with the storage unchanged. -/
theorem update_one_first_match_only
    (reSearch : String → String → Bool → Bool) (q : Query)
    (fields : List (String × Value)) (pre post : List Doc) (d : Doc)
    (hpre : ∀ e ∈ pre, matchQuery reSearch e q = .ok false)
    (hd : matchQuery reSearch d q = .ok true) :
    update_one reSearch (pre ++ d :: post) q (some fields)
      = .ok (pre ++ d.updateWith fields :: post, 1, 1)
    ∧ (∀ k, k ∉ fields.map Prod.fst
        → (d.updateWith fields).get k = d.get k)
    ∧ (∀ k w, (k, w) ∈ fields → (fields.map Prod.fst).Nodup
        → (d.updateWith fields).get k = some w)
    ∧ (∀ storage2 : List Doc,
        (∀ e ∈ storage2, matchQuery reSearch e q = .ok false)
        → update_one reSearch storage2 q (some fields) = .ok (storage2, 0, 0)) := by
  refine ⟨?_, fun k hk => Doc.get_updateWith_not_mem d fields k hk,
    fun k w hm hnd => Doc.get_updateWith_mem d fields k w hm hnd, ?_⟩
  · induction pre with
    | nil => simp [update_one, hd, applySet]
    | cons e rest ih =>
        have he : matchQuery reSearch e q = .ok false := hpre e (by simp)
        have hrest : ∀ e1 ∈ rest, matchQuery reSearch e1 q = .ok false :=
          fun e1 h1 => hpre e1 (by simp [h1])
        simp [update_one, he, ih hrest]
  · intro storage2 hall
    induction storage2 with
    | nil => rfl
    | cons e rest ih =>
        have he : matchQuery reSearch e q = .ok false := hall e (by simp)
        have hrest : ∀ e1 ∈ rest, matchQuery reSearch e1 q = .ok false :=
          fun e1 h1 => hall e1 (by simp [h1])
        simp [update_one, he, ih hrest]

/-- C8 witness: in the two-document store
`[{t:0}, {t:1, p:5}]`, updating `{t:1}` with `{$set: {p: 9}}` rewrites
only the second document's `p` field and reports `(1, 1)`; the same
filter over the non-matching store `[{t:0}]` reports `(0, 0)`. -/
theorem update_one_first_match_only_witness :
    update_one noRe [[("t", Value.num 0)], [("t", Value.num 1), ("p", Value.num 5)]]
        [("t", QueryValue.lit (Value.num 1))] (some [("p", Value.num 9)])
      = .ok ([[("t", Value.num 0)],
          Doc.updateWith [("t", Value.num 1), ("p", Value.num 5)] [("p", Value.num 9)]], 1, 1)
    ∧ (Doc.updateWith [("t", Value.num 1), ("p", Value.num 5)] [("p", Value.num 9)]).get "t"
        = Doc.get [("t", Value.num 1), ("p", Value.num 5)] "t"
    ∧ (Doc.updateWith [("t", Value.num 1), ("p", Value.num 5)] [("p", Value.num 9)]).get "p"
        = some (Value.num 9)
    ∧ update_one noRe [[("t", Value.num 0)]]
        [("t", QueryValue.lit (Value.num 1))] (some [("p", Value.num 9)])
      = .ok ([[("t", Value.num 0)]], 0, 0) := by
  have h := update_one_first_match_only noRe [("t", QueryValue.lit (Value.num 1))]
    [("p", Value.num 9)] [[("t", Value.num 0)]] []
    [("t", Value.num 1), ("p", Value.num 5)] (by decide) (by decide)
  exact ⟨h.1, h.2.1 "t" (by decide), h.2.2.1 "p" (Value.num 9) (by decide) (by decide),
    h.2.2.2 [[("t", Value.num 0)]] (by decide)⟩

/-- Membership of the reference returned by a `find_first` scan. -/
theorem RefModel.find_first_mem (reSearch : String → String → Bool → Bool)
    (s : RefModel.Store) (l : List RefModel.Ref) (q : Query) (r : RefModel.Ref)
    (h : RefModel.find_first reSearch s l q = .ok (some r)) : r ∈ l := by
  induction l with
  | nil =>
      simp [RefModel.find_first] at h
  | cons r1 rest ih =>
      rcases hm : matchQuery reSearch (s.cell r1) q with e | b
      · rw [RefModel.find_first, hm] at h
        simp at h
      · rw [RefModel.find_first, hm] at h
        cases b with
        | true =>
            simp at h
            simp [h]
        | false =>
            simp at h
            exact List.mem_cons_of_mem _ (ih h)

/-- C5 counterexample: after inserting `{t:1}` into an empty store,
`find_one({})` hands back the stored dict itself; assigning `t := 2`
through that returned reference changes the store's stored content. -/
theorem find_one_returns_alias :
    (RefModel.insert_one ⟨[[("t", Value.num 1)]], []⟩ 0 0).1
      = ⟨[[("t", Value.num 1), ("_id", Value.str "mem_0_0")],
          [("t", Value.num 1), ("_id", Value.str "mem_0_0")]], [1]⟩
    ∧ RefModel.find_one noRe
        ⟨[[("t", Value.num 1), ("_id", Value.str "mem_0_0")],
          [("t", Value.num 1), ("_id", Value.str "mem_0_0")]], [1]⟩ []
      = .ok (some 1)
    ∧ (RefModel.writeField
        ⟨[[("t", Value.num 1), ("_id", Value.str "mem_0_0")],
          [("t", Value.num 1), ("_id", Value.str "mem_0_0")]], [1]⟩
        1 "t" (Value.num 2)).docs
      ≠ (⟨[[("t", Value.num 1), ("_id", Value.str "mem_0_0")],
          [("t", Value.num 1), ("_id", Value.str "mem_0_0")]], [1]⟩ :
            RefModel.Store).docs := by
  exact ⟨rfl, rfl, by decide⟩

/-- C5 amended: reads alias rather than copy — `find_one` returns a
reference drawn directly from `_memory_storage` (the stored dict object
itself), so a field assignment through the returned reference rewrites
the stored content at every storage position holding that reference,
while all other stored documents are unaffected. -/
theorem find_one_alias_mutation (reSearch : String → String → Bool → Bool)
    (s : RefModel.Store) (q : Query) (r : RefModel.Ref)
    (hw : ∀ r1 ∈ s.storage, r1 < s.heap.length)
    (h : RefModel.find_one reSearch s q = .ok (some r)) :
    r ∈ s.storage
    ∧ ∀ k v, (RefModel.writeField s r k v).docs
        = s.storage.map
            (fun r2 => if r2 = r then (s.cell r).set k v else s.cell r2) := by
  have hmem : r ∈ s.storage := RefModel.find_first_mem reSearch s s.storage q r h
  refine ⟨hmem, fun k v => ?_⟩
  apply List.map_congr_left
  intro r2 hr2
  by_cases he : r2 = r
  · subst he
    simp only [if_pos rfl]
    have hr : r2 < s.heap.length := hw r2 hr2
    simp [RefModel.writeField, RefModel.Store.cell, RefModel.Store.docs,
      List.getD_eq_getElem?_getD, List.getElem?_set_self hr]
  · simp [RefModel.writeField, RefModel.Store.cell, RefModel.Store.docs,
      List.getD_eq_getElem?_getD, List.getElem?_set_ne (Ne.symm he), he]

/-- C5 amended, witness: in the concrete two-cell store obtained from
one insert, `find_one({})` returns reference `1`, which indeed sits in
the storage list, and writing `t := 2` through it rewrites the stored
document. -/
theorem find_one_alias_mutation_witness :
    (1 : RefModel.Ref) ∈
      ([1] : List RefModel.Ref)
    ∧ (RefModel.writeField
        ⟨[[("t", Value.num 1), ("_id", Value.str "mem_0_0")],
          [("t", Value.num 1), ("_id", Value.str "mem_0_0")]], [1]⟩
        1 "t" (Value.num 2)).docs
      = [Doc.set [("t", Value.num 1), ("_id", Value.str "mem_0_0")] "t" (Value.num 2)] := by
  have h := find_one_alias_mutation noRe
    ⟨[[("t", Value.num 1), ("_id", Value.str "mem_0_0")],
      [("t", Value.num 1), ("_id", Value.str "mem_0_0")]], [1]⟩ [] 1
    (by decide) (by rfl)
  refine ⟨h.1, (h.2 "t" (Value.num 2)).trans (by decide)⟩

/-!
Facts about the stable insertion sort.
-/

theorem insertSorted_perm {α : Type} (le : α → α → Bool) (d : α) (l : List α) :
    (insertSorted le d l).Perm (d :: l) := by
  induction l with
  | nil => exact List.Perm.refl _
  | cons e rest ih =>
      by_cases h : le e d
      · simp only [insertSorted, if_pos h]
        exact (ih.cons e).trans (List.Perm.swap d e rest)
      · simp only [insertSorted, if_neg h]
        exact List.Perm.refl _

theorem pairwise_insertSorted {α : Type} (le : α → α → Bool)
    (htot : ∀ a b, le a b = true ∨ le b a = true)
    (htrans : ∀ a b c, le a b = true → le b c = true → le a c = true)
    (d : α) (l : List α) (h : l.Pairwise (fun a b => le a b = true)) :
    (insertSorted le d l).Pairwise (fun a b => le a b = true) := by
  induction l with
  | nil => simp [insertSorted]
  | cons e rest ih =>
      rcases List.pairwise_cons.mp h with ⟨he, hrest⟩
      by_cases hle : le e d = true
      · simp only [insertSorted, if_pos hle]
        refine List.pairwise_cons.mpr ⟨?_, ih hrest⟩
        intro x hx
        have hx2 : x ∈ d :: rest := (insertSorted_perm le d rest).mem_iff.mp hx
        rcases List.mem_cons.mp hx2 with he2 | hm
        · exact he2 ▸ hle
        · exact he x hm
      · have hde : le d e = true := (htot e d).resolve_left hle
        simp only [insertSorted, if_neg hle]
        refine List.pairwise_cons.mpr ⟨?_, h⟩
        intro x hx
        rcases List.mem_cons.mp hx with he2 | hm
        · exact he2 ▸ hde
        · exact htrans d e x hde (he x hm)

theorem filter_insertSorted {α : Type} (le : α → α → Bool)
    (htrans : ∀ a b c, le a b = true → le b c = true → le a c = true)
    (d d0 : α) (l : List α) (hsort : l.Pairwise (fun a b => le a b = true)) :
    (insertSorted le d l).filter (fun x => le x d0 && le d0 x)
      = l.filter (fun x => le x d0 && le d0 x)
        ++ (if le d d0 && le d0 d then [d] else []) := by
  induction l with
  | nil =>
      by_cases hpd : (le d d0 && le d0 d) = true
      · simp only [insertSorted]
        rw [@List.filter_cons_of_pos α (fun x => le x d0 && le d0 x) d [] hpd]
        simp [hpd]
      · simp only [insertSorted]
        rw [@List.filter_cons_of_neg α (fun x => le x d0 && le d0 x) d [] hpd]
        simp [hpd]
  | cons e rest ih =>
      rcases List.pairwise_cons.mp hsort with ⟨he, hrest⟩
      by_cases hle : le e d = true
      · simp only [insertSorted, if_pos hle]
        by_cases hpe : (le e d0 && le d0 e) = true
        · rw [@List.filter_cons_of_pos α (fun x => le x d0 && le d0 x) e
              (insertSorted le d rest) hpe,
            @List.filter_cons_of_pos α (fun x => le x d0 && le d0 x) e rest hpe,
            ih hrest, List.cons_append]
        · rw [@List.filter_cons_of_neg α (fun x => le x d0 && le d0 x) e
              (insertSorted le d rest) hpe,
            @List.filter_cons_of_neg α (fun x => le x d0 && le d0 x) e rest hpe,
            ih hrest]
      · simp only [insertSorted, if_neg hle]
        by_cases hpd : (le d d0 && le d0 d) = true
        · have hd0d : le d0 d = true := by
            have h2 := hpd
            simp only [Bool.and_eq_true] at h2
            exact h2.2
          have hnone : ∀ x ∈ e :: rest, ¬ (le x d0 && le d0 x) = true := by
            intro x hx ht
            have hx0 : le x d0 = true := by
              simp only [Bool.and_eq_true] at ht
              exact ht.1
            have hxd : le x d = true := htrans x d0 d hx0 hd0d
            rcases List.mem_cons.mp hx with he2 | hm
            · exact hle (he2 ▸ hxd)
            · exact hle (htrans e x d (he x hm) hxd)
          have hfil : (e :: rest).filter (fun x => le x d0 && le d0 x) = [] :=
            List.filter_eq_nil_iff.mpr hnone
          rw [@List.filter_cons_of_pos α (fun x => le x d0 && le d0 x) d
              (e :: rest) hpd, hfil]
          simp [hpd]
        · rw [@List.filter_cons_of_neg α (fun x => le x d0 && le d0 x) d
              (e :: rest) hpd]
          simp [hpd]

theorem foldl_insertSorted_perm {α : Type} (le : α → α → Bool)
    (l : List α) : ∀ acc : List α,
    (l.foldl (fun acc d => insertSorted le d acc) acc).Perm (acc ++ l) := by
  induction l with
  | nil => intro acc; simp
  | cons d t ih =>
      intro acc
      have h1 := ih (insertSorted le d acc)
      have h2 : (insertSorted le d acc ++ t).Perm ((d :: acc) ++ t) :=
        (insertSorted_perm le d acc).append_right t
      have h3 : ((d :: acc) ++ t).Perm (acc ++ d :: t) := List.perm_middle.symm
      exact (h1.trans h2).trans h3

theorem foldl_insertSorted_pairwise {α : Type} (le : α → α → Bool)
    (htot : ∀ a b, le a b = true ∨ le b a = true)
    (htrans : ∀ a b c, le a b = true → le b c = true → le a c = true)
    (l : List α) : ∀ acc : List α, acc.Pairwise (fun a b => le a b = true) →
    (l.foldl (fun acc d => insertSorted le d acc) acc).Pairwise
      (fun a b => le a b = true) := by
  induction l with
  | nil => intro acc h; exact h
  | cons d t ih =>
      intro acc h
      exact ih _ (pairwise_insertSorted le htot htrans d acc h)

theorem foldl_insertSorted_filter {α : Type} (le : α → α → Bool)
    (htot : ∀ a b, le a b = true ∨ le b a = true)
    (htrans : ∀ a b c, le a b = true → le b c = true → le a c = true)
    (d0 : α) (l : List α) : ∀ acc : List α,
    acc.Pairwise (fun a b => le a b = true) →
    (l.foldl (fun acc d => insertSorted le d acc) acc).filter
        (fun x => le x d0 && le d0 x)
      = acc.filter (fun x => le x d0 && le d0 x)
        ++ l.filter (fun x => le x d0 && le d0 x) := by
  induction l with
  | nil => intro acc h; simp
  | cons d t ih =>
      intro acc h
      have h1 := ih (insertSorted le d acc)
        (pairwise_insertSorted le htot htrans d acc h)
      calc ((d :: t).foldl (fun acc d => insertSorted le d acc) acc).filter
              (fun x => le x d0 && le d0 x)
          = (insertSorted le d acc).filter (fun x => le x d0 && le d0 x)
              ++ t.filter (fun x => le x d0 && le d0 x) := h1
        _ = (acc.filter (fun x => le x d0 && le d0 x)
              ++ (if le d d0 && le d0 d then [d] else []))
              ++ t.filter (fun x => le x d0 && le d0 x) := by
              rw [filter_insertSorted le htrans d d0 acc h]
        _ = acc.filter (fun x => le x d0 && le d0 x)
              ++ ((d :: t).filter (fun x => le x d0 && le d0 x)) := by
              by_cases hpd : (le d d0 && le d0 d) = true
              · simp [hpd, List.filter_cons, List.append_assoc]
              · simp [hpd, List.filter_cons]

theorem stableSortBy_perm {α : Type} (le : α → α → Bool) (l : List α) :
    (stableSortBy le l).Perm l := by
  simpa [stableSortBy] using foldl_insertSorted_perm le l []

theorem stableSortBy_pairwise {α : Type} (le : α → α → Bool)
    (htot : ∀ a b, le a b = true ∨ le b a = true)
    (htrans : ∀ a b c, le a b = true → le b c = true → le a c = true)
    (l : List α) :
    (stableSortBy le l).Pairwise (fun a b => le a b = true) :=
  foldl_insertSorted_pairwise le htot htrans l [] (List.Pairwise.nil)

theorem stableSortBy_filter {α : Type} (le : α → α → Bool)
    (htot : ∀ a b, le a b = true ∨ le b a = true)
    (htrans : ∀ a b c, le a b = true → le b c = true → le a c = true)
    (d0 : α) (l : List α) :
    (stableSortBy le l).filter (fun x => le x d0 && le d0 x)
      = l.filter (fun x => le x d0 && le d0 x) := by
  simpa [stableSortBy] using
    foldl_insertSorted_filter le htot htrans d0 l [] (List.Pairwise.nil)

theorem numLe_total (f : String) (dir : Int) (a b : Doc) :
    numLe f dir a b = true ∨ numLe f dir b a = true := by
  by_cases h : dir = -1
  · simp only [numLe, if_pos h, decide_eq_true_eq]
    exact le_total _ _
  · simp only [numLe, if_neg h, decide_eq_true_eq]
    exact le_total _ _

theorem numLe_trans (f : String) (dir : Int) (a b c : Doc)
    (h1 : numLe f dir a b = true) (h2 : numLe f dir b c = true) :
    numLe f dir a c = true := by
  by_cases h : dir = -1
  · simp only [numLe, if_pos h, decide_eq_true_eq] at h1 h2 ⊢
    exact le_trans h2 h1
  · simp only [numLe, if_neg h, decide_eq_true_eq] at h1 h2 ⊢
    exact le_trans h1 h2

/-- C4 counterexample: with no limit configured, `to_list(length=1)`
returns both candidate documents — the `maxCount` argument is not
applied, contradicting the claimed "at most maxCount" step. -/
theorem to_list_ignores_maxcount :
    MemoryCursor.to_list
        ⟨[[("a", Value.num 1)], [("a", Value.num 2)]], 0, none, none, 1⟩ (some 1)
      = .ok [[("a", Value.num 1)], [("a", Value.num 2)]]
    ∧ ¬ (([[("a", Value.num 1)], [("a", Value.num 2)]] : List Doc).length ≤ 1) := by
  exact ⟨rfl, by decide⟩

/-- C4 amended: `to_list` materialises in the fixed order stable sort
(when a sort was set; missing sort keys comparing as the number zero),
then drop the first `skip` entries, then take at most `limit` entries
when a non-zero limit was set — the `maxCount` argument is ignored
entirely, so without a limit every entry after the skip is returned
regardless of `maxCount`.  The sorted branch is stated for numeric sort
keys (the totally ordered case the claim describes); the sort is a
permutation, is ordered by the chosen comparator, and is stable: the
subsequence of documents tied with any fixed document is preserved. -/
theorem to_list_sort_skip_limit (data : List Doc) (f : String) (dir : Int)
    (sk : Nat) (lim : Option Nat) (len1 len2 : Option Nat)
    (hf : f ≠ "")
    (hnum : (data.map (sortKey f)).all Value.isNum = true) :
    MemoryCursor.to_list ⟨data, sk, lim, some f, dir⟩ len1
        = .ok (pyLimit lim ((stableSortBy (numLe f dir) data).drop sk))
    ∧ MemoryCursor.to_list ⟨data, sk, lim, none, dir⟩ len1
        = .ok (pyLimit lim (data.drop sk))
    ∧ (∀ c : MemoryCursor, c.to_list len1 = c.to_list len2)
    ∧ (stableSortBy (numLe f dir) data).Perm data
    ∧ (stableSortBy (numLe f dir) data).Pairwise
        (fun a b => numLe f dir a b = true)
    ∧ (∀ d0 : Doc, (stableSortBy (numLe f dir) data).filter
          (fun x => numLe f dir x d0 && numLe f dir d0 x)
        = data.filter (fun x => numLe f dir x d0 && numLe f dir d0 x)) := by
  refine ⟨?_, rfl, fun c => rfl, stableSortBy_perm _ _,
    stableSortBy_pairwise _ (numLe_total f dir) (numLe_trans f dir) _,
    fun d0 => stableSortBy_filter _ (numLe_total f dir) (numLe_trans f dir) _ _⟩
  simp [MemoryCursor.to_list, hf, pySort, hnum]

/-- C4 amended, witness: sorting `[{p:2}, {p:1}]` ascending by `p` with
skip 0 and limit 1 yields `[{p:1}]`, even with `maxCount = 5` passed. -/
theorem to_list_sort_skip_limit_witness :
    MemoryCursor.to_list
        ⟨[[("p", Value.num 2)], [("p", Value.num 1)]], 0, some 1, some "p", 1⟩
        (some 5)
      = .ok [[("p", Value.num 1)]] := by
  have h := (to_list_sort_skip_limit [[("p", Value.num 2)], [("p", Value.num 1)]]
    "p" 1 0 (some 1) (some 5) none (by decide) (by decide)).1
  exact h.trans (by decide)

end BooksStore
